import Mathlib

/-!
Verification of the Oculizer lighting-control engine against its
natural-language specification.

The repository ships its design documents (scene fallback system, dual-stream
audio architecture, Windows hang fix, DMX protocol integration); the Python
modules they describe (`oculizer/scenes/scene_manager.py`,
`oculizer/light/control.py`, the Enttec protocol controller) are not part of
the source tree available here, so the components are modelled from the
specification and the design documents, faithfully to their pseudocode.
-/

namespace Oculizer

/-- Association-list lookup on string keys, the model of a Python `dict`
lookup `d.get(k)`. -/
def alookup {β : Type} : List (String × β) → String → Option β
  | [], _ => none
  | (k, v) :: rest, q => if k = q then some v else alookup rest q

/-- Modelled from the spec: the `SceneManager` state of
`oculizer/scenes/scene_manager.py` (file absent from the tree).  `scenes` maps
each scene name to the list of fixtures the scene references (lights plus
orchestrator targets); `availableFixtures` is the profile's fixture inventory
(`none` when the manager was constructed without profile information);
`fallbackMappings` is the per-profile scene → substitute-scene map loaded from
`profile_fallbacks.json`. -/
structure SceneManager where
  scenes : List (String × List String)
  profileName : Option String
  availableFixtures : Option (List String)
  fallbackMappings : List (String × String)

/-- Modelled from the spec: `_get_scene_fixtures` — the fixtures referenced by
a scene (empty when the scene is unknown). -/
def sceneFixtures (mgr : SceneManager) (scene : String) : List String :=
  match alookup mgr.scenes scene with
  | some fs => fs
  | none => []

/-- Modelled from the spec: `_is_scene_compatible` — a scene is compatible
when the intersection of its referenced fixtures and the profile's fixture set
is non-empty; without profile information every scene is treated as
compatible. -/
def isSceneCompatible (mgr : SceneManager) (scene : String) : Bool :=
  match mgr.availableFixtures with
  | none => true
  | some av => (sceneFixtures mgr scene).any (fun f => decide (f ∈ av))

/-- Modelled from the spec: `set_scene` with `apply_fallback=True`, i.e. the
Scene Resolver `resolve(requested_scene_name, profile, fallback_map)`.
In order: (1) a fallback-map entry is always substituted (forced fallback,
overriding compatibility); (2) otherwise a compatible scene is used as is,
unflagged; (3) an incompatible scene with no fallback entry is used as
requested but flagged.  Returns the effective scene name and the
`was_forced_or_incompatible` flag. -/
def setScene (mgr : SceneManager) (sceneName : String) : String × Bool :=
  match alookup mgr.fallbackMappings sceneName with
  | some fb => (fb, true)
  | none =>
    if isSceneCompatible mgr sceneName then (sceneName, false)
    else (sceneName, true)

/-- Modelled from the spec: the `SceneManager` constructor.  Fallback mappings
are loaded from the per-profile section of `profile_fallbacks.json`
(`profileFallbacks`); when no profile name is given, no mappings are loaded
(backwards-compatible mode). -/
def mkSceneManager (scenes : List (String × List String))
    (profileName : Option String) (availableFixtures : Option (List String))
    (profileFallbacks : List (String × List (String × String))) : SceneManager :=
  let fallbacks :=
    match profileName with
    | none => []
    | some pname =>
      match alookup profileFallbacks pname with
      | some m => m
      | none => []
  { scenes := scenes, profileName := profileName,
    availableFixtures := availableFixtures, fallbackMappings := fallbacks }

end Oculizer

namespace Oculizer

/-- Enttec USB DMX Pro protocol start byte (0x7E). -/
def START_BYTE : Nat := 0x7E

/-- Enttec USB DMX Pro protocol end byte (0xE7). -/
def END_BYTE : Nat := 0xE7

/-- DMX start code, the leading byte of the 513-byte DMX payload. -/
def DMX_START_CODE : Nat := 0x00

/-- Modelled from the spec: the `EnttecProController` message framing (the
controller module is absent from the tree).  A ChannelFrame is framed as
`START_BYTE | label | length_lo | length_hi | DMX_START_CODE | channels |
END_BYTE`, the two length bytes being the little-endian length of the payload
(start code plus channel bytes). -/
def encodeFrame (label : Nat) (channels : List Nat) : List Nat :=
  let payloadLen := channels.length + 1
  START_BYTE :: label :: payloadLen % 256 :: payloadLen / 256 ::
    DMX_START_CODE :: (channels ++ [END_BYTE])

/-- Modelled from the spec: decoding/validating a wire message of the Enttec
USB DMX Pro framing.  Checks the start byte, reads the label and the
little-endian payload length, takes that many payload bytes, requires the end
byte to follow immediately, strips the DMX start code, and returns the label
with the channel array; any malformed message yields `none`. -/
def decodeFrame (msg : List Nat) : Option (Nat × List Nat) :=
  match msg with
  | start :: label :: lo :: hi :: rest =>
    if start = START_BYTE then
      let len := lo + 256 * hi
      if (rest.take len).length = len then
        if rest.drop len = [END_BYTE] then
          match rest.take len with
          | code :: chans =>
            if code = DMX_START_CODE then some (label, chans) else none
          | [] => none
        else none
      else none
    else none
  | _ => none

/-- Modelled from the spec: the engine handles held by
`oculizer/light/control.py` (file absent from the tree).  `none` is the
explicit closed sentinel a handle is set to after teardown. -/
structure EngineState where
  running : Bool
  modulationStream : Option Nat
  predictionStream : Option Nat
  dmxController : Option Nat
deriving DecidableEq

/-- Resource-release actions the shutdown path can perform, recorded so that
duplicate release is observable in the model. -/
inductive ShutdownAction where
  | stopModulationStream
  | closeModulationStream
  | stopPredictionStream
  | closePredictionStream
  | closeDmx
deriving DecidableEq

/-- Modelled from the spec: `Oculizer.stop` (and the equivalent `finally`
block).  Clears the running flag; for each stream handle that is not the
closed sentinel, stops and closes it and sets it to the sentinel; closes the
device channel last and sets it to the sentinel.  Returns the new state and
the list of release actions performed. -/
def stopEngine (s : EngineState) : EngineState × List ShutdownAction :=
  let s1 : EngineState := { s with running := false }
  let step2 :=
    match s1.predictionStream with
    | some _ =>
      ({ s1 with predictionStream := none },
        [ShutdownAction.stopPredictionStream, ShutdownAction.closePredictionStream])
    | none => (s1, [])
  let step3 :=
    match step2.1.modulationStream with
    | some _ =>
      ({ step2.1 with modulationStream := none },
        step2.2 ++ [ShutdownAction.stopModulationStream, ShutdownAction.closeModulationStream])
    | none => step2
  match step3.1.dmxController with
  | some _ =>
    ({ step3.1 with dmxController := none }, step3.2 ++ [ShutdownAction.closeDmx])
  | none => step3

/-- Modelled from the spec: the state touched by `prediction_audio_callback`
in `oculizer/light/control.py` (file absent from the tree).  The prediction
audio queue is bounded (`capacity`, created with `maxsize=100` in the code the
Windows-hang-fix document quotes); `dropped` counts frames dropped on a full
queue, for observability. -/
structure CallbackState where
  running : Bool
  capacity : Nat
  queue : List (List Nat)
  dropped : Nat
deriving DecidableEq

/-- Modelled from the spec: frame conditioning in the audio callback — the
stereo frame is downmixed to mono by averaging the two channels. -/
def downmixMono (frame : List (Nat × Nat)) : List Nat :=
  frame.map (fun c => (c.1 + c.2) / 2)

/-- Modelled from the spec: `prediction_audio_callback`.  If the running flag
is clear it returns immediately with no side effects; otherwise it conditions
the frame and attempts a non-blocking enqueue (`put_nowait`); on a full queue
the frame is dropped (counted) instead of blocking.  The model is a total
function: no invocation blocks or raises. -/
def predictionAudioCallback (s : CallbackState) (frame : List (Nat × Nat)) :
    CallbackState :=
  if s.running = false then s
  else if s.queue.length < s.capacity then
    { s with queue := s.queue ++ [downmixMono frame] }
  else
    { s with dropped := s.dropped + 1 }

/-- A sequence of callback invocations, one per arriving frame, with no
draining in between. -/
def feedFrames (s : CallbackState) (frames : List (List (Nat × Nat))) :
    CallbackState :=
  frames.foldl predictionAudioCallback s

/-- Modelled from the spec: the prediction state published by the Prediction
Pipeline worker under the ControlState lock. -/
structure PredState where
  currentPredictedScene : Option String
  currentClusterId : Option Nat
  predictionCount : Nat
  workerRunning : Bool
deriving DecidableEq

/-- Modelled from the spec: one iteration of the Prediction Pipeline worker on
a received chunk.  The feature-extraction collaborator `infer` may fail
(`Except.error`, the model of a raised exception, caught and logged by the
worker) or return a cluster id with no scene mapping (an invalid result); in
either case the published prediction state is left unchanged and the loop
continues.  The step is a total function: no failure propagates out of the
worker. -/
def workerStep (infer : List Nat → Except String Nat)
    (clusterToScene : Nat → Option String) (s : PredState) (chunk : List Nat) :
    PredState :=
  if s.workerRunning = false then s
  else
    match infer chunk with
    | Except.error _ => s
    | Except.ok cid =>
      match clusterToScene cid with
      | some name =>
        { s with currentPredictedScene := some name,
                 currentClusterId := some cid,
                 predictionCount := s.predictionCount + 1 }
      | none => s

/-- Occurrence count of a scene name in a history window. -/
def cnt (x : String) : List String → Nat
  | [] => 0
  | y :: ys => (if y = x then 1 else 0) + cnt x ys

/-- Index of the first occurrence of `x` in a list (the list's length when
`x` is absent).  Histories are kept most-recent-first, so a smaller index
means a more recent occurrence. -/
def fidx (x : String) : List String → Nat
  | [] => 0
  | y :: ys => if y = x then 0 else fidx x ys + 1

/-- Modelled from the spec: one step of the majority vote over the history
window `h` — a candidate replaces the current best only when its count is
strictly greater, so on a tie the earlier (more recent) candidate wins. -/
def voteStep (h : List String) (best : Option String) (c : String) :
    Option String :=
  match best with
  | none => some c
  | some b => if cnt b h < cnt c h then some c else some b

/-- Modelled from the spec: the Prediction Smoother's reported "current
predicted scene" — the most frequent scene name in the (most-recent-first)
history window, ties broken in favor of the most recent occurrence;
`none` only on an empty history. -/
def reportScene (h : List String) : Option String :=
  h.foldl (voteStep h) none

/-- Modelled from the spec: inserting a new `PredictionRecord` into the
bounded `PredictionHistory` of capacity `n` (most-recent-first): the record is
prepended and the history truncated to `n`, evicting the oldest record when
full. -/
def insertRecord (n : Nat) (h : List String) (s : String) : List String :=
  (s :: h).take n

/-- The history after feeding a whole sequence of raw predictions (in arrival
order) into an initially empty capacity-`n` history. -/
def feedPredictions (n : Nat) (preds : List String) : List String :=
  preds.foldl (insertRecord n) []

/-- The most recent `n` records of a prediction sequence, most recent
first. -/
def window (n : Nat) (preds : List String) : List String :=
  preds.reverse.take n

/-- The scene the Smoother reports after the whole prediction sequence has
been fed in. -/
def currentPredictedScene (n : Nat) (preds : List String) : Option String :=
  reportScene (feedPredictions n preds)

end Oculizer

namespace Oculizer

/-- C1: forced-fallback precedence.  Whenever the requested scene has an entry
in the fallback map, `setScene` returns that entry as the effective scene with
the forced flag set, unconditionally — for every manager state, hence in
particular when the requested scene is itself compatible with the profile:
the fallback lookup overrides the compatibility check. -/
theorem forced_fallback_precedence (mgr : SceneManager) (s fb : String)
    (hfb : alookup mgr.fallbackMappings s = some fb) :
    setScene mgr s = (fb, true) := by
  unfold setScene
  rw [hfb]

/-- Witness for C1, on the documented forced-fallback example: scene
`blue_bass_pulse` is compatible with the mobile profile (it uses
`rockville1`), yet its fallback entry `sequence_blue` is substituted. -/
theorem forced_fallback_precedence_witness :
    isSceneCompatible
      { scenes := [("blue_bass_pulse", ["rockville1", "rgb1"])],
        profileName := some "mobile",
        availableFixtures := some ["rockville1", "rockville2"],
        fallbackMappings := [("blue_bass_pulse", "sequence_blue")] }
      "blue_bass_pulse" = true ∧
    setScene
      { scenes := [("blue_bass_pulse", ["rockville1", "rgb1"])],
        profileName := some "mobile",
        availableFixtures := some ["rockville1", "rockville2"],
        fallbackMappings := [("blue_bass_pulse", "sequence_blue")] }
      "blue_bass_pulse" = ("sequence_blue", true) :=
  ⟨by decide, forced_fallback_precedence _ _ _ (by decide)⟩

/-- C4: compatibility fallback on miss.  A scene with no fallback entry whose
referenced fixtures have empty intersection with the profile's fixture set is
returned as itself — not blacked out, not substituted — with the
incompatibility flag set. -/
theorem incompatible_no_fallback_used_as_is (mgr : SceneManager) (s : String)
    (av : List String)
    (hfb : alookup mgr.fallbackMappings s = none)
    (hav : mgr.availableFixtures = some av)
    (hdisj : ∀ f ∈ sceneFixtures mgr s, f ∉ av) :
    setScene mgr s = (s, true) := by
  unfold setScene
  rw [hfb]
  have hcompat : isSceneCompatible mgr s = false := by
    unfold isSceneCompatible
    rw [hav]
    simp only [List.any_eq_false, decide_eq_true_eq]
    exact hdisj
  rw [hcompat]
  simp

/-- Witness for C4, on the spec's scenario: profile `mobile` has only
rockvilles, scene `orb_cycle` references only orbs and has no fallback entry;
it resolves to itself, flagged incompatible. -/
theorem incompatible_no_fallback_used_as_is_witness :
    setScene
      { scenes := [("orb_cycle", ["orb1", "orb2"])],
        profileName := some "mobile",
        availableFixtures := some ["rockville1", "rockville2"],
        fallbackMappings := [("bass_hopper_rainbow", "supernova")] }
      "orb_cycle" = ("orb_cycle", true) :=
  incompatible_no_fallback_used_as_is _ _ ["rockville1", "rockville2"]
    (by decide) rfl (by decide)

/-- C9: fallback substitution is single-step.  When scene `a` maps to `b` and
`b` itself maps to `c`, requesting `a` yields exactly `b` — the map is applied
once and never chased through `b`'s own entry, so a chain `a → b → c` is never
followed (requesting `b` directly would yield `c`). -/
theorem fallback_single_step (mgr : SceneManager) (a b c : String)
    (hab : alookup mgr.fallbackMappings a = some b)
    (hbc : alookup mgr.fallbackMappings b = some c) :
    setScene mgr a = (b, true) ∧ setScene mgr b = (c, true) := by
  constructor
  · unfold setScene; rw [hab]
  · unfold setScene; rw [hbc]

/-- Witness for C9: a two-link chain `a → b → c` in the fallback map; the
request for `a` resolves to `b`, not to `c`. -/
theorem fallback_single_step_witness :
    setScene
      { scenes := [], profileName := some "mobile",
        availableFixtures := some ["rockville1"],
        fallbackMappings := [("a", "b"), ("b", "c")] }
      "a" = ("b", true) ∧
    setScene
      { scenes := [], profileName := some "mobile",
        availableFixtures := some ["rockville1"],
        fallbackMappings := [("a", "b"), ("b", "c")] }
      "b" = ("c", true) :=
  fallback_single_step _ "a" "b" "c" (by decide) (by decide)

/-- C10: no-profile degeneration.  A manager constructed without profile
information (no profile name, no available-fixture set) loads no fallback
mappings and treats every scene as compatible: every request resolves to
itself with the flag clear — resolution is the identity on scene names. -/
theorem no_profile_identity (scenes : List (String × List String))
    (profileFallbacks : List (String × List (String × String))) (s : String) :
    setScene (mkSceneManager scenes none none profileFallbacks) s = (s, false) := by
  unfold setScene mkSceneManager isSceneCompatible alookup
  simp

/-- Unfolding equation for `decodeFrame` on a message with at least the four
header bytes. -/
lemma decodeFrame_cons (start lbl lo hi : Nat) (rest : List Nat) :
    decodeFrame (start :: lbl :: lo :: hi :: rest) =
      (if start = START_BYTE then
        if (rest.take (lo + 256 * hi)).length = lo + 256 * hi then
          if rest.drop (lo + 256 * hi) = [END_BYTE] then
            match rest.take (lo + 256 * hi) with
            | code :: chans => if code = DMX_START_CODE then some (lbl, chans) else none
            | [] => none
          else none
        else none
      else none) := rfl

/-- C5: protocol round-trip.  Encoding a 512-channel ChannelFrame whose values
all lie in 0..255 into the Enttec USB DMX Pro wire message and decoding that
exact byte sequence recovers the identical channel array (and the label). -/
theorem protocol_roundtrip (label : Nat) (channels : List Nat)
    (hlen : channels.length = 512) (hvals : ∀ v ∈ channels, v < 256) :
    decodeFrame (encodeFrame label channels) = some (label, channels) := by
  have hp : (channels.length + 1) % 256 + 256 * ((channels.length + 1) / 256)
      = channels.length + 1 := Nat.mod_add_div _ _
  have htake : (DMX_START_CODE :: (channels ++ [END_BYTE])).take (channels.length + 1)
      = DMX_START_CODE :: channels := by
    simp [List.take_succ_cons]
  have hdrop : (DMX_START_CODE :: (channels ++ [END_BYTE])).drop (channels.length + 1)
      = [END_BYTE] := by
    simp
  simp only [encodeFrame]
  rw [decodeFrame_cons, hp, htake, hdrop]
  simp

/-- Witness for C5: the all-zero 512-channel frame round-trips through the
codec. -/
theorem protocol_roundtrip_witness :
    decodeFrame (encodeFrame 6 (List.replicate 512 0))
      = some (6, List.replicate 512 0) :=
  protocol_roundtrip 6 (List.replicate 512 0) (List.length_replicate 512 0)
    (fun v hv => by rw [List.eq_of_mem_replicate hv]; omega)

/-- Invariant of repeated callback invocations with no draining: the flag and
capacity are untouched, the queue grows up to capacity, and every frame
arriving on a full queue is counted as dropped. -/
lemma feedFrames_spec (frames : List (List (Nat × Nat))) (s : CallbackState)
    (hrun : s.running = true) (hq : s.queue.length ≤ s.capacity) :
    (feedFrames s frames).running = true ∧
    (feedFrames s frames).capacity = s.capacity ∧
    (feedFrames s frames).queue.length
      = min (s.queue.length + frames.length) s.capacity ∧
    (feedFrames s frames).dropped
      = s.dropped + (s.queue.length + frames.length - s.capacity) := by
  induction frames generalizing s with
  | nil =>
    refine ⟨hrun, rfl, ?_, ?_⟩ <;> simp [feedFrames] <;> omega
  | cons f rest ih =>
    by_cases hlt : s.queue.length < s.capacity
    · have hcb : predictionAudioCallback s f
          = { s with queue := s.queue ++ [downmixMono f] } := by
        simp [predictionAudioCallback, hrun, hlt]
      have hstep : feedFrames s (f :: rest)
          = feedFrames { s with queue := s.queue ++ [downmixMono f] } rest := by
        rw [feedFrames, List.foldl_cons, hcb]; rfl
      obtain ⟨h1, h2, h3, h4⟩ :=
        ih { s with queue := s.queue ++ [downmixMono f] } hrun (by simp; omega)
      rw [hstep]
      refine ⟨h1, by simpa using h2, ?_, ?_⟩
      · rw [h3]; simp [List.length_append]; omega
      · rw [h4]; simp [List.length_append]; omega
    · have hcb : predictionAudioCallback s f = { s with dropped := s.dropped + 1 } := by
        simp [predictionAudioCallback, hrun, hlt]
      have hstep : feedFrames s (f :: rest)
          = feedFrames { s with dropped := s.dropped + 1 } rest := by
        rw [feedFrames, List.foldl_cons, hcb]; rfl
      obtain ⟨h1, h2, h3, h4⟩ :=
        ih { s with dropped := s.dropped + 1 } hrun (by simpa using hq)
      rw [hstep]
      refine ⟨h1, by simpa using h2, ?_, ?_⟩
      · rw [h3]; simp; omega
      · rw [h4]; simp; omega

/-- C3: audio callback contract.  (a) with the running flag clear the callback
returns the state unchanged (no side effects); (b) with the flag set and the
queue not full it performs exactly one non-blocking enqueue of the conditioned
frame; (c) on a full queue it drops the frame (counting it) and returns; and
feeding 150 frames into an undrained capacity-100 queue yields exactly 100
enqueued frames and 50 drops.  The callback is a total function in the model:
no invocation blocks. -/
theorem audio_callback_contract :
    (∀ (s : CallbackState) (frame : List (Nat × Nat)), s.running = false →
      predictionAudioCallback s frame = s) ∧
    (∀ (s : CallbackState) (frame : List (Nat × Nat)), s.running = true →
      s.queue.length < s.capacity →
      predictionAudioCallback s frame
        = { s with queue := s.queue ++ [downmixMono frame] }) ∧
    (∀ (s : CallbackState) (frame : List (Nat × Nat)), s.running = true →
      ¬ s.queue.length < s.capacity →
      predictionAudioCallback s frame = { s with dropped := s.dropped + 1 }) ∧
    (∀ frames : List (List (Nat × Nat)), frames.length = 150 →
      (feedFrames ⟨true, 100, [], 0⟩ frames).queue.length = 100 ∧
      (feedFrames ⟨true, 100, [], 0⟩ frames).dropped = 50) := by
  refine ⟨?_, ?_, ?_, ?_⟩
  · intro s frame hr; simp [predictionAudioCallback, hr]
  · intro s frame hr hlt; simp [predictionAudioCallback, hr, hlt]
  · intro s frame hr hlt; simp [predictionAudioCallback, hr, hlt]
  · intro frames hlen
    obtain ⟨_, _, h3, h4⟩ := feedFrames_spec frames ⟨true, 100, [], 0⟩ rfl (by simp)
    rw [hlen] at h3 h4
    exact ⟨by rw [h3]; decide, by rw [h4]; decide⟩

/-- Witness for C3: a cleared-flag invocation is the identity, and a concrete
run of 150 frames against the capacity-100 queue ends with 100 queued and 50
dropped frames. -/
theorem audio_callback_contract_witness :
    predictionAudioCallback ⟨false, 100, [], 0⟩ [(2, 4)] = ⟨false, 100, [], 0⟩ ∧
    (feedFrames ⟨true, 100, [], 0⟩ (List.replicate 150 [])).queue.length = 100 ∧
    (feedFrames ⟨true, 100, [], 0⟩ (List.replicate 150 [])).dropped = 50 :=
  ⟨audio_callback_contract.1 ⟨false, 100, [], 0⟩ [(2, 4)] rfl,
   (audio_callback_contract.2.2.2 (List.replicate 150 [])
      (List.length_replicate 150 [])).1,
   (audio_callback_contract.2.2.2 (List.replicate 150 [])
      (List.length_replicate 150 [])).2⟩

/-- C8: inference-failure containment.  When the feature-extraction
collaborator raises (models as `Except.error`) or returns a cluster id with no
scene mapping (an invalid result), the worker step leaves the published
prediction state unchanged — in particular `workerRunning` stays set, so the
worker does not terminate and handles the next chunk; the step being a total
function, nothing propagates to the main control loop. -/
theorem inference_failure_contained :
    (∀ (infer : List Nat → Except String Nat) (clusterToScene : Nat → Option String)
      (s : PredState) (chunk : List Nat) (e : String),
      s.workerRunning = true → infer chunk = Except.error e →
      workerStep infer clusterToScene s chunk = s) ∧
    (∀ (infer : List Nat → Except String Nat) (clusterToScene : Nat → Option String)
      (s : PredState) (chunk : List Nat) (cid : Nat),
      s.workerRunning = true → infer chunk = Except.ok cid →
      clusterToScene cid = none →
      workerStep infer clusterToScene s chunk = s) := by
  constructor
  · intro infer clusterToScene s chunk e hr hi
    simp [workerStep, hr, hi]
  · intro infer clusterToScene s chunk cid hr hi hm
    simp [workerStep, hr, hi, hm]

/-- Witness for C8: a collaborator that always raises leaves a concrete
running worker state untouched. -/
theorem inference_failure_contained_witness :
    workerStep (fun _ => Except.error "inference failed") (fun _ => none)
      ⟨some "party", some 3, 7, true⟩ [1, 2, 3]
      = ⟨some "party", some 3, 7, true⟩ :=
  inference_failure_contained.1 (fun _ => Except.error "inference failed")
    (fun _ => none) ⟨some "party", some 3, 7, true⟩ [1, 2, 3]
    "inference failed" rfl rfl

/-- First-occurrence index in an append, when the element occurs in the left
part. -/
lemma fidx_append_of_mem (x : String) (p q : List String) (hx : x ∈ p) :
    fidx x (p ++ q) = fidx x p := by
  induction p with
  | nil => cases hx
  | cons y p ih =>
    by_cases hyx : y = x
    · simp [fidx, hyx]
    · have hx' : x ∈ p := by
        rcases List.mem_cons.1 hx with h | h
        · exact absurd h.symm hyx
        · exact h
      simp [fidx, hyx, ih hx']

/-- The first-occurrence index of a member is a valid position. -/
lemma fidx_lt_length_of_mem (x : String) (p : List String) (hx : x ∈ p) :
    fidx x p < p.length := by
  induction p with
  | nil => cases hx
  | cons y p ih =>
    by_cases hyx : y = x
    · simp [fidx, hyx]
    · have hx' : x ∈ p := by
        rcases List.mem_cons.1 hx with h | h
        · exact absurd h.symm hyx
        · exact h
      have := ih hx'
      simp only [fidx, hyx, if_false, List.length_cons]
      omega

/-- First-occurrence index in an append, when the element does not occur in
the left part. -/
lemma fidx_append_of_not_mem (x : String) (p q : List String) (hx : x ∉ p) :
    fidx x (p ++ q) = p.length + fidx x q := by
  induction p with
  | nil => simp [fidx]
  | cons y p ih =>
    have hyx : y ≠ x := fun h => hx (h ▸ List.mem_cons_self y p)
    have hx' : x ∉ p := fun h => hx (List.mem_cons_of_mem y h)
    simp [fidx, hyx, ih hx']
    omega

/-- Invariant of the majority-vote fold: starting from a best candidate that
dominates the processed part of the window (maximal count, ties already
resolved toward recency), the fold over the remaining part yields an element
of the window with maximal count whose first (most recent) occurrence is no
later than that of any other maximal-count name. -/
lemma vote_fold_spec (h : List String) :
    ∀ (rest pre : List String) (b : String),
      h = pre ++ rest → b ∈ pre →
      (∀ s ∈ pre, cnt s h ≤ cnt b h) →
      (∀ s ∈ pre, cnt s h = cnt b h → fidx b h ≤ fidx s h) →
      ∃ m, List.foldl (voteStep h) (some b) rest = some m ∧ m ∈ h ∧
        (∀ s ∈ h, cnt s h ≤ cnt m h) ∧
        (∀ s ∈ h, cnt s h = cnt m h → fidx m h ≤ fidx s h) := by
  intro rest
  induction rest with
  | nil =>
    intro pre b heq hb hmax htie
    have hpre : pre = h := by simpa using heq.symm
    subst hpre
    exact ⟨b, rfl, hb, hmax, htie⟩
  | cons c rest ih =>
    intro pre b heq hb hmax htie
    rw [List.foldl_cons]
    by_cases hlt : cnt b h < cnt c h
    · have hv : voteStep h (some b) c = some c := by simp [voteStep, hlt]
      rw [hv]
      refine ih (pre ++ [c]) c ?_ (by simp) ?_ ?_
      · rw [heq]; simp
      · intro s hs
        rcases List.mem_append.1 hs with hs | hs
        · exact le_trans (hmax s hs) (le_of_lt hlt)
        · have : s = c := by simpa using hs
          subst this; exact le_refl _
      · intro s hs hcnt
        rcases List.mem_append.1 hs with hs | hs
        · have := hmax s hs; omega
        · have : s = c := by simpa using hs
          subst this; exact le_refl _
    · have hv : voteStep h (some b) c = some b := by simp [voteStep, hlt]
      rw [hv]
      refine ih (pre ++ [c]) b ?_ (List.mem_append_left _ hb) ?_ ?_
      · rw [heq]; simp
      · intro s hs
        rcases List.mem_append.1 hs with hs | hs
        · exact hmax s hs
        · have : s = c := by simpa using hs
          subst this; omega
      · intro s hs hcnt
        rcases List.mem_append.1 hs with hs | hs
        · exact htie s hs hcnt
        · have : s = c := by simpa using hs
          subst this
          by_cases hcp : s ∈ pre
          · exact htie s hcp hcnt
          · have h1 : fidx s h = pre.length := by
              rw [heq, fidx_append_of_not_mem s pre _ hcp]
              simp [fidx]
            have h2 : fidx b h < pre.length := by
              rw [heq, fidx_append_of_mem b pre _ hb]
              exact fidx_lt_length_of_mem b pre hb
            omega

/-- The Smoother's report on a nonempty window is a member of maximal count
whose most recent occurrence breaks any tie. -/
lemma reportScene_spec (h : List String) (hne : h ≠ []) :
    ∃ m, reportScene h = some m ∧ m ∈ h ∧
      (∀ s ∈ h, cnt s h ≤ cnt m h) ∧
      (∀ s ∈ h, cnt s h = cnt m h → fidx m h ≤ fidx s h) := by
  match h with
  | [] => exact absurd rfl hne
  | c :: t =>
    have hrw : reportScene (c :: t) = List.foldl (voteStep (c :: t)) (some c) t := rfl
    rw [hrw]
    refine vote_fold_spec (c :: t) t [c] c rfl (by simp) ?_ ?_
    · intro s hs
      have : s = c := by simpa using hs
      subst this; exact le_refl _
    · intro s hs hcnt
      have : s = c := by simpa using hs
      subst this; exact le_refl _

/-- Truncating to `n` after prepending to an already-truncated list is the
same as truncating the untruncated prepend. -/
lemma take_cons_take (n : Nat) (x : String) (l : List String) :
    (x :: l.take n).take n = (x :: l).take n := by
  cases n with
  | zero => rfl
  | succ k =>
    simp only [List.take_succ_cons, List.take_take]
    have hmin : k ⊓ (k + 1) = k := by omega
    rw [hmin]

/-- Feeding a prediction sequence into the empty bounded history yields
exactly the most recent `n` records, most recent first. -/
lemma feedPredictions_eq_window (n : Nat) (preds : List String) :
    feedPredictions n preds = window n preds := by
  have aux : ∀ (ps done : List String),
      ps.foldl (insertRecord n) (done.take n) = (ps.reverse ++ done).take n := by
    intro ps
    induction ps with
    | nil => intro done; simp
    | cons x ps ih =>
      intro done
      calc (x :: ps).foldl (insertRecord n) (done.take n)
          = ps.foldl (insertRecord n) (insertRecord n (done.take n) x) :=
            List.foldl_cons ps _
        _ = ps.foldl (insertRecord n) ((x :: done).take n) := by
            rw [insertRecord, take_cons_take]
        _ = (ps.reverse ++ (x :: done)).take n := ih (x :: done)
        _ = ((x :: ps).reverse ++ done).take n := by simp
  have h0 : (([] : List String)).take n = [] := List.take_nil
  have := aux preds []
  rw [h0] at this
  simpa [feedPredictions, window] using this

/-- C7: PredictionHistory bounded-capacity invariant.  For capacity `n ≥ 1`:
the history never holds more than `n` records however many predictions are
fed in; an insert into a full history prepends the new record and evicts
exactly the oldest one, keeping the remaining records in order
(`s :: h.dropLast`); and each insert is one fold step, so the majority-vote
input — hence its result — is recomputed on that insert. -/
theorem prediction_history_invariant (n : Nat) (hn : 1 ≤ n) :
    (∀ preds : List String, (feedPredictions n preds).length ≤ n) ∧
    (∀ (h : List String) (s : String), h.length = n →
      insertRecord n h s = s :: h.dropLast) ∧
    (∀ (preds : List String) (s : String),
      feedPredictions n (preds ++ [s])
        = insertRecord n (feedPredictions n preds) s) := by
  refine ⟨?_, ?_, ?_⟩
  · intro preds
    rw [feedPredictions_eq_window, window]
    simp only [List.length_take]
    omega
  · intro h s hlen
    obtain ⟨k, hk⟩ : ∃ k, n = k + 1 := ⟨n - 1, by omega⟩
    subst hk
    rw [insertRecord, List.take_succ_cons, List.dropLast_eq_take, hlen]
    simp
  · intro preds s
    rw [feedPredictions, feedPredictions, List.foldl_append]
    rfl

/-- Witness for C7 at capacity 3: four inserts leave three records, and the
insert into the full history evicts exactly the oldest record. -/
theorem prediction_history_invariant_witness :
    (feedPredictions 3 ["a", "b", "c", "d"]).length ≤ 3 ∧
    insertRecord 3 ["c", "b", "a"] "d" = "d" :: ["c", "b", "a"].dropLast :=
  ⟨(prediction_history_invariant 3 (by omega)).1 ["a", "b", "c", "d"],
   (prediction_history_invariant 3 (by omega)).2.1 ["c", "b", "a"] "d" rfl⟩

/-- C2: Prediction Smoother majority vote.  For every capacity `n ≥ 1` and
nonempty prediction sequence, the reported scene is defined and lies in the
window of the most recent `min(length, n)` records; it has maximal occurrence
count in that window; on ties its most recent occurrence is at least as
recent as any other maximal-count scene's; and for `n = 1` it is exactly the
latest raw prediction. -/
theorem smoother_majority_vote (n : Nat) (preds : List String)
    (hn : 1 ≤ n) (hne : preds ≠ []) :
    ∃ m, currentPredictedScene n preds = some m ∧
      m ∈ window n preds ∧
      (window n preds).length = min preds.length n ∧
      (∀ s ∈ window n preds,
        cnt s (window n preds) ≤ cnt m (window n preds)) ∧
      (∀ s ∈ window n preds,
        cnt s (window n preds) = cnt m (window n preds) →
        fidx m (window n preds) ≤ fidx s (window n preds)) ∧
      (n = 1 → preds.getLast? = some m) := by
  have hwne : window n preds ≠ [] := by
    rw [window]
    cases hr : preds.reverse with
    | nil => exact absurd (List.reverse_eq_nil_iff.1 hr) hne
    | cons y ys =>
      obtain ⟨k, hk⟩ : ∃ k, n = k + 1 := ⟨n - 1, by omega⟩
      subst hk
      simp
  obtain ⟨m, hm1, hm2, hm3, hm4⟩ := reportScene_spec (window n preds) hwne
  refine ⟨m, ?_, hm2, ?_, hm3, hm4, ?_⟩
  · rw [currentPredictedScene, feedPredictions_eq_window]
    exact hm1
  · rw [window]
    simp only [List.length_take, List.length_reverse]
    omega
  · intro h1
    subst h1
    cases hr : preds.reverse with
    | nil => exact absurd (List.reverse_eq_nil_iff.1 hr) hne
    | cons y ys =>
      have hwin : window 1 preds = [y] := by rw [window, hr]; rfl
      have hmy : m = y := by
        have := hm1
        rw [hwin] at this
        have hy : reportScene [y] = some y := rfl
        rw [hy] at this
        exact (Option.some_inj.1 this).symm
      rw [← List.head?_reverse, hr, hmy]
      rfl

/-- Witness for C2 at capacity 3 on the spec's example sequence
`[party, ambient, party]`: the vote is defined and all stated properties hold
of it. -/
theorem smoother_majority_vote_witness :
    ∃ m, currentPredictedScene 3 ["party", "ambient", "party"] = some m ∧
      m ∈ window 3 ["party", "ambient", "party"] ∧
      (window 3 ["party", "ambient", "party"]).length
        = min (["party", "ambient", "party"] : List String).length 3 ∧
      (∀ s ∈ window 3 ["party", "ambient", "party"],
        cnt s (window 3 ["party", "ambient", "party"])
          ≤ cnt m (window 3 ["party", "ambient", "party"])) ∧
      (∀ s ∈ window 3 ["party", "ambient", "party"],
        cnt s (window 3 ["party", "ambient", "party"])
          = cnt m (window 3 ["party", "ambient", "party"]) →
        fidx m (window 3 ["party", "ambient", "party"])
          ≤ fidx s (window 3 ["party", "ambient", "party"])) ∧
      (3 = 1 → (["party", "ambient", "party"] : List String).getLast? = some m) :=
  smoother_majority_vote 3 ["party", "ambient", "party"] (by omega)
    (by simp)

/-- C6: idempotent shutdown.  Invoking the shutdown path a second time,
starting from the post-shutdown state (every handle at the closed sentinel),
performs no resource-release action, raises no error (`stopEngine` is total),
and leaves the state unchanged. -/
theorem shutdown_idempotent (s : EngineState) :
    stopEngine (stopEngine s).1 = ((stopEngine s).1, []) := by
  obtain ⟨r, ms, ps, dc⟩ := s
  cases ms <;> cases ps <;> cases dc <;> rfl

end Oculizer
